import Mathlib

/-!
Verification of the changelog-aggregation logic of the changesets action
(`src/run.ts`).  The JavaScript string primitives used by the source
(`indexOf`, `slice`, `split`, `trim`, `trimStart`, `replace`, template
interpolation) are embedded as executable functions over `List Char`,
and the source's functions (`splitAndCapitalize`, `splitContent`, the
bucket renderers and the document assembler) are translated on top of
them.
-/

namespace Changesets

/-- Shorthand: the character list of a string literal. -/
def str (s : String) : List Char := s.data

/-- The whitespace class of JavaScript `\s` / `trim` (ASCII part). -/
def jsIsSpace (c : Char) : Bool :=
  c = ' ' || c = '\t' || c = '\n' || c = '\r' || c = '\x0b' || c = '\x0c'

/-- JavaScript `String.prototype.indexOf`: index of the leftmost
occurrence of `pat` in `l`, `none` when absent. -/
def firstIdx (pat : List Char) : List Char → Option Nat
  | [] => if pat.isPrefixOf ([] : List Char) then some 0 else none
  | x :: xs =>
    if pat.isPrefixOf (x :: xs) then some 0
    else (firstIdx pat xs).map (· + 1)

/-- JavaScript `String.prototype.includes`. -/
def includesL (pat l : List Char) : Bool := (firstIdx pat l).isSome

/-- JavaScript `split` on a single-character separator. -/
def splitCh (c : Char) : List Char → List (List Char)
  | [] => [[]]
  | x :: xs =>
    if x = c then [] :: splitCh c xs
    else
      match splitCh c xs with
      | [] => [[x]]
      | y :: ys => (x :: y) :: ys

/-- Fuel-driven worker for JavaScript `split` on a multi-character
separator: repeatedly cut at the leftmost occurrence. -/
def splitFuel (pat : List Char) : Nat → List Char → List (List Char)
  | 0, l => [l]
  | n + 1, l =>
    match firstIdx pat l with
    | none => [l]
    | some i => l.take i :: splitFuel pat n (l.drop (i + pat.length))

/-- JavaScript `split` on a (non-empty) separator string. -/
def jsSplit (pat l : List Char) : List (List Char) :=
  splitFuel pat (l.length + 1) l

/-- JavaScript `s.split(pat)[1]`: `none` models the `undefined` result
(whose subsequent `.trim()` throws). -/
def splitAt1 (pat l : List Char) : Option (List Char) :=
  (jsSplit pat l)[1]?

/-- JavaScript `trimStart` (on a single line). -/
def trimStartL (l : List Char) : List Char := l.dropWhile jsIsSpace

/-- JavaScript `trim` (both ends). -/
def trimChars (l : List Char) : List Char :=
  ((l.dropWhile jsIsSpace).reverse.dropWhile jsIsSpace).reverse

/-- JavaScript `String.prototype.replace` with a string pattern:
replaces only the first occurrence. -/
def replaceFirst (pat repl l : List Char) : List Char :=
  match firstIdx pat l with
  | none => l
  | some i => l.take i ++ repl ++ l.drop (i + pat.length)

/-- JavaScript `slice(i, j)` (empty when `j ≤ i`). -/
def jsSlice (l : List Char) (i j : Nat) : List Char := (l.drop i).take (j - i)

/-- JavaScript `Array.prototype.join` with a one-character separator. -/
def joinWith (c : Char) : List (List Char) → List Char
  | [] => []
  | [x] => x
  | x :: y :: ys => x ++ c :: joinWith c (y :: ys)

/-- JavaScript capitalization of one word:
`word.charAt(0).toUpperCase() + word.slice(1).toLowerCase()`. -/
def capWord : List Char → List Char
  | [] => []
  | x :: xs => x.toUpper :: xs.map Char.toLower

/-- The function `splitAndCapitalize` from `run.ts`: split the package name on `-`,
drop the first word, capitalize and join the rest with spaces. -/
def splitAndCapitalize (s : List Char) : List Char :=
  joinWith ' ' (((splitCh '-' s).drop 1).map capWord)

/-- The changelog-entry content built in `runVersion`:
`` `## ${splitAndCapitalize(pkg.packageJson.name)}\n\n` + entry.content ``. -/
def entryContentOf (name body : List Char) : List Char :=
  str "## " ++ splitAndCapitalize name ++ str "\n\n" ++ body

/-- First line of a text, i.e. `content.split('\n')[0]`. -/
def firstLineOf (l : List Char) : List Char := (splitCh '\n' l).headD []

/-- The plugin name computed by `splitContent`:
`content.split('\n')[0].replace('## ', '').trim()`. -/
def pluginNameOf (content : List Char) : List Char :=
  trimChars (replaceFirst (str "## ") [] (firstLineOf content))

/-- The `major`/`patch` section pair computed by `splitContent` via
`indexOf('Major Changes')` / `indexOf('Patch Changes')` and `slice`. -/
def splitContentPair (content : List Char) : List Char × List Char :=
  let majorIdx := firstIdx (str "Major Changes") content
  let patchIdx := firstIdx (str "Patch Changes") content
  let major :=
    match majorIdx with
    | none => []
    | some i =>
      match patchIdx with
      | some j => replaceFirst (str "###") [] (trimChars (jsSlice content i j))
      | none => trimChars (content.drop i)
  let patch :=
    match patchIdx with
    | none => []
    | some j => trimChars (content.drop j)
  (major, patch)

/-- The title-keyed mapping `Record<string, {major, patch}>`. -/
abbrev AssocL := List (List Char × (List Char × List Char))

/-- JavaScript object assignment `obj[k] = v`: replace the value of an
existing key in place, otherwise append the new key at the end. -/
def updateAssoc (m : AssocL) (k : List Char) (v : List Char × List Char) :
    AssocL :=
  match m with
  | [] => [(k, v)]
  | (k', v') :: rest =>
    if k' = k then (k, v) :: rest else (k', v') :: updateAssoc rest k v

/-- JavaScript object lookup `obj[k]`. -/
def lookupAssoc (m : AssocL) (k : List Char) : Option (List Char × List Char) :=
  match m with
  | [] => none
  | (k', v') :: rest => if k' = k then some v' else lookupAssoc rest k

/-- Removal of a key from the mapping (used to state that an entry
contributes nothing to the rendered buckets). -/
def removeAssoc (m : AssocL) (k : List Char) : AssocL :=
  m.filter (fun p => p.1 != k)

/-- The function `splitContent` from `runVersion`: classify one entry's content and
store the section pair under its plugin name (the mutation of
`existingObj` is modeled by returning the updated mapping). -/
def splitContent (content : List Char) (existingObj : AssocL) : AssocL :=
  updateAssoc existingObj (pluginNameOf content) (splitContentPair content)

/-- The loop `for (const item of changelogEntries) splitContent(...)`
starting from the empty object `pluginChanges`. -/
def processEntries (contents : List (List Char)) : AssocL :=
  contents.foldl (fun m c => splitContent c m) []

/-- The step `section.split("Changes")[1].trim()` of the mapping-based renderer;
`none` models the runtime failure on a missing index 1. -/
def renderChanges (s : List Char) : Option (List Char) :=
  (splitAt1 (str "Changes") s).map trimChars

/-- The template pushed onto `features` / `bugfixes` in `runVersion`
(exact whitespace of the source template literal). -/
def subItemB (name t : List Char) : List Char :=
  str "\n         ### " ++ name ++ str "\n         " ++ t ++ str "\n      "

/-- The `features`/`bugfixes` loop over `Object.entries(pluginChanges)`:
a non-empty major section contributes to `features`, a non-empty patch
section to `bugfixes`; `none` models a thrown `TypeError`. -/
def bucketsOf : AssocL → Option (List (List Char) × List (List Char))
  | [] => some ([], [])
  | (n, (ma, pa)) :: rest =>
    let fItem : Option (List (List Char)) :=
      if ma = [] then some [] else (renderChanges ma).map (fun t => [subItemB n t])
    let bItem : Option (List (List Char)) :=
      if pa = [] then some [] else (renderChanges pa).map (fun t => [subItemB n t])
    match fItem, bItem, bucketsOf rest with
    | some f, some b, some (fs, bs) => some (f ++ fs, b ++ bs)
    | _, _, _ => none

/-- The `markdown` template of the mapping-based implementation:
Features heading, joined features, blank-ish line, Bug fixes heading,
joined bugfixes (exact whitespace of the source). -/
def markdownB (fs bs : List (List Char)) : List Char :=
  str "\n  ## Features\n  " ++ joinWith '\n' fs ++
    str "\n  \n  ## Bug fixes\n  " ++ joinWith '\n' bs ++ str "\n  "

/-- Left-align every line: `lines.map(trimStart).join('\n')`. -/
def alignedOf (md : List Char) : List Char :=
  joinWith '\n' ((splitCh '\n' md).map trimStartL)

/-- The `changelogBody` template wrapping the aligned markdown under a
`# Release v{version}` heading. -/
def changelogBodyOf (version md : List Char) : List Char :=
  str "\n# Release v" ++ version ++ str "\n\n" ++ alignedOf md ++ str "\n"

/-- The full mapping-based aggregation: classify all entries, render the
buckets, assemble and wrap the document. -/
def implBDoc (entries : List (List Char)) (version : List Char) :
    Option (List Char) :=
  (bucketsOf (processEntries entries)).map
    (fun p => changelogBodyOf version (markdownB p.1 p.2))

/-! The earlier, filter-based implementation (`createFeatureMarkDown` /
`createBugFixedMarkdown`): entries are filtered by the substrings
`'Major'` / `'Patch'`, the plugin name is recovered with the regex
`/##\s*([^\n]+)/`, and the interpolated arrays are joined with `,`. -/

/-- Backtracking choice of how much of the `\s*` run the regex keeps:
try the longest whitespace skip `w` first, then shorter ones, so that
`[^\n]+` can still match at least one character. -/
def bestW (rest : List Char) : Nat → Option (List Char)
  | 0 =>
    match rest with
    | [] => none
    | x :: _ => if x = '\n' then none else some (rest.takeWhile (· ≠ '\n'))
  | w + 1 =>
    match rest.drop (w + 1) with
    | [] => bestW rest w
    | x :: _ =>
      if x = '\n' then bestW rest w
      else some ((rest.drop (w + 1)).takeWhile (· ≠ '\n'))

/-- First capture group of `content.match(/##\s*([^\n]+)/)`, `none`
when the regex does not match. -/
def matchHeading : List Char → Option (List Char)
  | [] => none
  | x :: xs =>
    match x :: xs with
    | '#' :: '#' :: rest =>
      match bestW rest (rest.takeWhile jsIsSpace).length with
      | some c => some c
      | none => matchHeading xs
    | _ => matchHeading xs

/-- Template interpolation of a possibly-`null` value. -/
def jsNullable (o : Option (List Char)) : List Char :=
  match o with
  | none => str "null"
  | some s => s

/-- One mapped element of the filter-based renderer (exact whitespace of
the inner template literal, with `\n\n` escapes expanded). -/
def entryItemA (content : List Char) : Option (List Char) :=
  (splitAt1 (str "Changes") content).map (fun c1 =>
    str "\n          ### " ++ jsNullable (matchHeading content) ++
      str "\n\n\n\n          " ++ trimChars c1 ++ str "\n        ")

/-- The function `createFeatureMarkDown`: filter on `'Major'`, map, and interpolate
the array (JavaScript joins it with commas). -/
def featureMarkDownA (entries : List (List Char)) : Option (List Char) :=
  ((entries.filter (includesL (str "Major"))).mapM entryItemA).map
    (fun xs => str "\n      ## Features\n      " ++ joinWith ',' xs ++ str "\n    ")

/-- The function `createBugFixedMarkdown`: filter on `'Patch'`, map, and interpolate
the array. -/
def bugFixedMarkdownA (entries : List (List Char)) : Option (List Char) :=
  ((entries.filter (includesL (str "Patch"))).mapM entryItemA).map
    (fun xs => str "\n      ## Bug fixes\n      " ++ joinWith ',' xs ++ str "\n    ")

/-- The filter-based aggregation:
`createFeatureMarkDown() + '\n\n' + createBugFixedMarkdown()`, then the
same align-and-wrap pipeline. -/
def implADoc (entries : List (List Char)) (version : List Char) :
    Option (List Char) :=
  match featureMarkDownA entries, bugFixedMarkdownA entries with
  | some f, some b => some (changelogBodyOf version (f ++ str "\n\n" ++ b))
  | _, _ => none

/-! File-path and formatter plumbing of `runVersion`. -/

/-- Template interpolation of the optional `releaseVersion` parameter:
JavaScript renders `undefined` as the string `"undefined"`. -/
def jsTemplateOpt (o : Option (List Char)) : List Char :=
  match o with
  | none => str "undefined"
  | some s => s

/-- The fallback `releaseVersion || versionFromPackageJson` (both `undefined` and the
empty string are falsy). -/
def toUseReleaseVersion (rv : Option (List Char)) (pj : List Char) : List Char :=
  match rv with
  | none => pj
  | some v => if v = [] then pj else v

/-- The statement `` const file = `v${releaseVersion}-changelog.md` `` of the source. -/
def changelogFileName (rv : Option (List Char)) : List Char :=
  str "v" ++ jsTemplateOpt rv ++ str "-changelog.md"

/-- The statement `` const fullChangelogPath = `${changelogPath}/${file}` `` of the source. -/
def fullChangelogPath (changelogPath : List Char) (rv : Option (List Char)) :
    List Char :=
  changelogPath ++ str "/" ++ changelogFileName rv

/-- The `try { changelogBody = prettier.format(...) } catch {}` step:
the external formatter is a parameter; a thrown error leaves the
unformatted body in place. -/
def applyFormatter (fmt : List Char → Except (List Char) (List Char))
    (body : List Char) : List Char :=
  match fmt body with
  | Except.ok s => s
  | Except.error _ => body

/-- The invariant of a stored section pair that keeps the bucket
renderer's `split("Changes")[1].trim()` from failing. -/
def goodPair (p : List Char × List Char) : Prop :=
  (p.1 ≠ [] → (renderChanges p.1).isSome) ∧
    (p.2 ≠ [] → (renderChanges p.2).isSome)

/-- The later entry with a given title, if any (spec-side description of
the overwrite behaviour of the classification loop). -/
def lastEntryFor (t : List Char) : List (List Char) → Option (List Char)
  | [] => none
  | co :: cs =>
    match lastEntryFor t cs with
    | some d => some d
    | none => if pluginNameOf co = t then some co else none

/-! Lemmas about `firstIdx`. -/

theorem pre_of_firstIdx {pat l : List Char} {i : Nat}
    (h : firstIdx pat l = some i) : pat <+: l.drop i := by
  induction l generalizing i with
  | nil =>
    simp only [firstIdx] at h
    split at h
    · rename_i hp
      cases h
      simpa using List.isPrefixOf_iff_prefix.mp hp
    · exact absurd h (by simp)
  | cons x xs ih =>
    simp only [firstIdx] at h
    split at h
    · rename_i hp
      cases h
      simpa using List.isPrefixOf_iff_prefix.mp hp
    · rcases Option.map_eq_some'.mp h with ⟨i', hi', rfl⟩
      simpa using ih hi'

theorem firstIdx_min {pat l : List Char} {i : Nat}
    (h : firstIdx pat l = some i) : ∀ k, k < i → ¬ pat <+: l.drop k := by
  induction l generalizing i with
  | nil =>
    simp only [firstIdx] at h
    split at h
    · cases h; omega
    · exact absurd h (by simp)
  | cons x xs ih =>
    simp only [firstIdx] at h
    split at h
    · cases h; omega
    · rename_i hnp
      rcases Option.map_eq_some'.mp h with ⟨i', hi', rfl⟩
      intro k hk
      cases k with
      | zero =>
        simpa using fun hpre => hnp (List.isPrefixOf_iff_prefix.mpr hpre)
      | succ k' => simpa using ih hi' k' (by omega)

theorem firstIdx_none {pat l : List Char}
    (h : firstIdx pat l = none) : ∀ k, ¬ pat <+: l.drop k := by
  induction l with
  | nil =>
    simp only [firstIdx] at h
    split at h
    · exact absurd h (by simp)
    · rename_i hnp
      intro k
      simpa using fun hpre => hnp (List.isPrefixOf_iff_prefix.mpr hpre)
  | cons x xs ih =>
    simp only [firstIdx] at h
    split at h
    · exact absurd h (by simp)
    · rename_i hnp
      intro k
      cases k with
      | zero =>
        simpa using fun hpre => hnp (List.isPrefixOf_iff_prefix.mpr hpre)
      | succ k' =>
        simpa using ih (by simpa using h) k'

theorem firstIdx_isSome {pat l : List Char} {k : Nat}
    (h : pat <+: l.drop k) : (firstIdx pat l).isSome := by
  cases hf : firstIdx pat l with
  | none => exact absurd h (firstIdx_none hf k)
  | some i => simp

/-! Lemmas about `splitFuel` / `jsSplit` / `splitAt1`. -/

theorem splitFuel_ne_nil (pat : List Char) (n : Nat) (l : List Char) :
    splitFuel pat n l ≠ [] := by
  cases n with
  | zero => simp [splitFuel]
  | succ n =>
    simp only [splitFuel]
    cases firstIdx pat l <;> simp

theorem jsSplit_of_none {pat l : List Char}
    (h : firstIdx pat l = none) : jsSplit pat l = [l] := by
  simp [jsSplit, splitFuel, h]

theorem splitAt1_eq_none {pat l : List Char}
    (h : firstIdx pat l = none) : splitAt1 pat l = none := by
  simp [splitAt1, jsSplit_of_none h]

theorem splitAt1_isSome {pat l : List Char} {i : Nat}
    (h : firstIdx pat l = some i) : (splitAt1 pat l).isSome := by
  have hne := splitFuel_ne_nil pat (l.length) (l.drop (i + pat.length))
  simp only [splitAt1, jsSplit, splitFuel, h]
  cases hrest : splitFuel pat l.length (l.drop (i + pat.length)) with
  | nil => exact absurd hrest hne
  | cons y ys => simp

/-! Lemmas about `splitCh`, `joinWith` and `dropWhile`. -/

theorem splitCh_ne_nil (c : Char) (l : List Char) : splitCh c l ≠ [] := by
  cases l with
  | nil => simp [splitCh]
  | cons x xs =>
    simp only [splitCh]
    split
    · simp
    · cases splitCh c xs <;> simp

theorem splitCh_append_sep (c : Char) (a b : List Char) :
    splitCh c (a ++ c :: b) = splitCh c a ++ splitCh c b := by
  induction a with
  | nil => simp [splitCh]
  | cons x xs ih =>
    by_cases hx : x = c
    · subst hx
      simp [splitCh, ih]
    · cases hs : splitCh c xs with
      | nil => exact absurd hs (splitCh_ne_nil c xs)
      | cons y ys =>
        simp [splitCh, if_neg hx, ih, hs]

theorem splitCh_eq_single {c : Char} {a : List Char}
    (h : c ∉ a) : splitCh c a = [a] := by
  induction a with
  | nil => simp [splitCh]
  | cons x xs ih =>
    have hx : x ≠ c := fun e => h (by simp [e])
    simp only [splitCh, if_neg hx, ih (fun m => h (by simp [m]))]

theorem not_mem_splitCh {c : Char} {l s : List Char}
    (h : s ∈ splitCh c l) : c ∉ s := by
  induction l generalizing s with
  | nil =>
    simp only [splitCh, List.mem_singleton] at h
    subst h; simp
  | cons x xs ih =>
    simp only [splitCh] at h
    split at h
    · rcases List.mem_cons.mp h with rfl | hm
      · simp
      · exact ih hm
    · rename_i hx
      rcases hs : splitCh c xs with _ | ⟨y, ys⟩
      · exact absurd hs (splitCh_ne_nil c xs)
      · rw [hs] at h
        rcases List.mem_cons.mp h with rfl | hm
        · have hy : c ∉ y := ih (by rw [hs]; simp)
          simp only [List.mem_cons]
          rintro (rfl | hc)
          · exact hx rfl
          · exact hy hc
        · exact ih (by rw [hs]; simp [hm])

theorem splitCh_joinWith {c : Char} {ls : List (List Char)}
    (h : ∀ s ∈ ls, c ∉ s) (hne : ls ≠ []) :
    splitCh c (joinWith c ls) = ls := by
  induction ls with
  | nil => exact absurd rfl hne
  | cons x xs ih =>
    cases xs with
    | nil =>
      simp only [joinWith]
      exact splitCh_eq_single (h x (by simp))
    | cons y ys =>
      simp only [joinWith, splitCh_append_sep]
      rw [splitCh_eq_single (h x (by simp)),
        ih (fun s hs => h s (by simp [List.mem_cons] at hs ⊢; tauto)) (by simp)]
      simp

theorem splitCh_prepend {c : Char} {p : List Char} (l : List Char)
    (h : c ∉ p) :
    splitCh c (p ++ l) = (p ++ (splitCh c l).headD []) :: (splitCh c l).tail := by
  induction p with
  | nil =>
    cases hs : splitCh c l with
    | nil => exact absurd hs (splitCh_ne_nil c l)
    | cons y ys => simp [hs]
  | cons x xs ih =>
    have hx : x ≠ c := fun e => h (by simp [e])
    have ih' := ih (fun m => h (by simp [m]))
    simp only [List.cons_append, splitCh, if_neg hx, List.append_eq, ih']

theorem dropWhile_append_all {q : Char → Bool} {p : List Char} (l : List Char)
    (h : ∀ x ∈ p, q x = true) :
    (p ++ l).dropWhile q = l.dropWhile q := by
  induction p with
  | nil => simp
  | cons x xs ih =>
    simp only [List.cons_append, List.dropWhile_cons, h x (by simp), if_pos]
    exact ih (fun y hy => h y (by simp [hy]))

theorem not_mem_dropWhile {q : Char → Bool} {a : Char} {l : List Char}
    (h : a ∉ l) : a ∉ l.dropWhile q :=
  fun hm => h ((List.dropWhile_sublist q).subset hm)

/-! Prefix preservation through `take`, `trimChars` and `replaceFirst`. -/

theorem pre_take {p l : List Char} {n : Nat}
    (h : p <+: l) (hn : p.length ≤ n) : p <+: l.take n := by
  obtain ⟨t, rfl⟩ := h
  rw [List.take_append_eq_append_take, List.take_of_length_le hn]
  exact ⟨t.take (n - p.length), rfl⟩

theorem dropWhile_append_keep {q : Char → Bool} {y : Char} (a b : List Char)
    (hy : q y = false) :
    ∃ a2, (a ++ y :: b).dropWhile q = a2 ++ y :: b := by
  induction a with
  | nil => exact ⟨[], by simp [List.dropWhile_cons, hy]⟩
  | cons z zs ih =>
    by_cases hz : q z
    · simpa [List.dropWhile_cons, hz] using ih
    · exact ⟨z :: zs, by simp [List.dropWhile_cons, hz]⟩

theorem trim_pre {p l : List Char} (hpre : p <+: l)
    (hhead : ∃ x xs, p = x :: xs ∧ jsIsSpace x = false)
    (hlast : ∃ y ys, p.reverse = y :: ys ∧ jsIsSpace y = false) :
    p <+: trimChars l := by
  obtain ⟨t, rfl⟩ := hpre
  obtain ⟨x, xs, rfl, hx⟩ := hhead
  obtain ⟨y, ys, hrev, hy⟩ := hlast
  have h1 : ((x :: xs) ++ t).dropWhile jsIsSpace = (x :: xs) ++ t := by
    rw [List.cons_append, List.dropWhile_cons, hx]
    simp
  have h2 : ((x :: xs) ++ t).reverse = t.reverse ++ (y :: ys) := by
    rw [List.reverse_append, hrev]
  obtain ⟨a2, ha2⟩ := dropWhile_append_keep t.reverse ys hy
  have h3 : x :: xs = (y :: ys).reverse := by
    have h4 := congrArg List.reverse hrev
    simpa using h4
  refine ⟨a2.reverse, ?_⟩
  show (x :: xs) ++ a2.reverse = trimChars ((x :: xs) ++ t)
  unfold trimChars
  rw [h1, h2, ha2, List.reverse_append, ← h3]

theorem pre_replaceFirst {p l pat repl : List Char} {a : Char} {pat' : List Char}
    (hpre : p <+: l) (hpat : pat = a :: pat') (ha : a ∉ p) :
    p <+: replaceFirst pat repl l := by
  unfold replaceFirst
  cases hf : firstIdx pat l with
  | none => exact hpre
  | some i =>
    have hlen : p.length ≤ i := by
      by_contra hlt
      push_neg at hlt
      obtain ⟨s, rfl⟩ := hpre
      obtain ⟨t, ht⟩ := pre_of_firstIdx hf
      rw [hpat] at ht
      have hds : List.drop i (p ++ s) = List.drop i p ++ s :=
        List.drop_append_of_le_length (le_of_lt hlt)
      rw [hds] at ht
      cases hdp : List.drop i p with
      | nil =>
        have hl2 := congrArg List.length hdp
        simp [List.length_drop] at hl2
        omega
      | cons b bs =>
        rw [hdp] at ht
        simp only [List.cons_append] at ht
        injection ht with hab htail
        apply ha
        rw [hab]
        exact List.drop_subset _ _ (by rw [hdp]; exact List.mem_cons_self _ _)
    have h1 : p <+: l.take i := pre_take hpre hlen
    refine h1.trans ?_
    show List.take i l <+: List.take i l ++ repl ++ List.drop (i + pat.length) l
    rw [List.append_assoc]
    exact List.prefix_append _ _

theorem patchIdx_ge {cs : List Char} {i j : Nat}
    (hM : firstIdx (str "Major Changes") cs = some i)
    (hP : firstIdx (str "Patch Changes") cs = some j)
    (hij : i < j) : i + 13 ≤ j := by
  by_contra hcon
  push_neg at hcon
  obtain ⟨tM, htM⟩ := pre_of_firstIdx hM
  obtain ⟨tP, htP⟩ := pre_of_firstIdx hP
  have hPj : cs[j]? = some 'P' := by
    have h0 : (cs.drop j)[0]? = some 'P' := by
      rw [← htP, show str "Patch Changes" = 'P' :: str "atch Changes" from by decide]
      simp
    rw [List.getElem?_drop] at h0
    simpa using h0
  have hlt13 : j - i < (str "Major Changes").length := by
    rw [show (str "Major Changes").length = 13 from by decide]
    omega
  have hMk : cs[j]? = (str "Major Changes")[j - i]? := by
    have h0 : (cs.drop i)[j - i]? = cs[j]? := by
      rw [List.getElem?_drop]
      congr 1
      omega
    rw [← h0, ← htM, List.getElem?_append, if_pos hlt13]
  rw [hPj] at hMk
  have hmem : 'P' ∈ str "Major Changes" := List.getElem?_mem hMk.symm
  exact absurd hmem (by decide)

/-! The sections stored by `splitContent` start with their markers. -/

theorem changes_pre_of_major {s : List Char}
    (h : str "Major Changes" <+: s) : str "Changes" <+: s.drop 6 := by
  obtain ⟨t, rfl⟩ := h
  rw [show str "Major Changes" = str "Major " ++ str "Changes" from by decide,
    List.append_assoc, show (6 : Nat) = (str "Major ").length from by decide,
    List.drop_left]
  exact List.prefix_append _ _

theorem changes_pre_of_patch {s : List Char}
    (h : str "Patch Changes" <+: s) : str "Changes" <+: s.drop 6 := by
  obtain ⟨t, rfl⟩ := h
  rw [show str "Patch Changes" = str "Patch " ++ str "Changes" from by decide,
    List.append_assoc, show (6 : Nat) = (str "Patch ").length from by decide,
    List.drop_left]
  exact List.prefix_append _ _

theorem renderChanges_isSome {s : List Char} {k : Nat}
    (h : str "Changes" <+: s.drop k) : (renderChanges s).isSome := by
  obtain ⟨i, hi⟩ := Option.isSome_iff_exists.mp (firstIdx_isSome h)
  simpa [renderChanges] using splitAt1_isSome hi

theorem major_section_pre {co : List Char} {i j : Nat}
    (hM : firstIdx (str "Major Changes") co = some i)
    (hP : firstIdx (str "Patch Changes") co = some j) (hij : i < j) :
    str "Major Changes" <+: (splitContentPair co).1 := by
  have h13 : i + 13 ≤ j := patchIdx_ge hM hP hij
  have hsl : str "Major Changes" <+: jsSlice co i j := by
    apply pre_take (pre_of_firstIdx hM)
    rw [show (str "Major Changes").length = 13 from by decide]
    omega
  have htr : str "Major Changes" <+: trimChars (jsSlice co i j) :=
    trim_pre hsl ⟨'M', str "ajor Changes", by decide, by decide⟩
      ⟨'s', str "egnahC rojaM", by decide, by decide⟩
  have hrep : str "Major Changes" <+:
      replaceFirst (str "###") [] (trimChars (jsSlice co i j)) :=
    pre_replaceFirst htr (show str "###" = '#' :: str "##" from by decide)
      (show '#' ∉ str "Major Changes" from by decide)
  have heq : (splitContentPair co).1 =
      replaceFirst (str "###") [] (trimChars (jsSlice co i j)) := by
    simp [splitContentPair, hM, hP]
  rw [heq]
  exact hrep

theorem major_section_pre_noP {co : List Char} {i : Nat}
    (hM : firstIdx (str "Major Changes") co = some i)
    (hP : firstIdx (str "Patch Changes") co = none) :
    str "Major Changes" <+: (splitContentPair co).1 := by
  have heq : (splitContentPair co).1 = trimChars (co.drop i) := by
    simp [splitContentPair, hM, hP]
  rw [heq]
  exact trim_pre (pre_of_firstIdx hM)
    ⟨'M', str "ajor Changes", by decide, by decide⟩
    ⟨'s', str "egnahC rojaM", by decide, by decide⟩

theorem patch_section_pre {co : List Char} {j : Nat}
    (hP : firstIdx (str "Patch Changes") co = some j) :
    str "Patch Changes" <+: (splitContentPair co).2 := by
  have heq : (splitContentPair co).2 = trimChars (co.drop j) := by
    simp [splitContentPair, hP]
  rw [heq]
  exact trim_pre (pre_of_firstIdx hP)
    ⟨'P', str "atch Changes", by decide, by decide⟩
    ⟨'s', str "egnahC hctaP", by decide, by decide⟩

theorem major_section_nonempty_cases {co : List Char}
    (h : (splitContentPair co).1 ≠ []) :
    str "Major Changes" <+: (splitContentPair co).1 := by
  cases hM : firstIdx (str "Major Changes") co with
  | none => exact absurd (by simp [splitContentPair, hM]) h
  | some i =>
    cases hP : firstIdx (str "Patch Changes") co with
    | none => exact major_section_pre_noP hM hP
    | some j =>
      rcases Nat.lt_or_ge i j with hij | hji
      · exact major_section_pre hM hP hij
      · exfalso
        apply h
        have hsl : jsSlice co i j = [] := by
          simp [jsSlice, show j - i = 0 from by omega]
        simp [splitContentPair, hM, hP, hsl,
          show trimChars [] = [] from by decide,
          show replaceFirst (str "###") [] [] = [] from by decide]

theorem patch_section_nonempty_cases {co : List Char}
    (h : (splitContentPair co).2 ≠ []) :
    str "Patch Changes" <+: (splitContentPair co).2 := by
  cases hP : firstIdx (str "Patch Changes") co with
  | none => exact absurd (by simp [splitContentPair, hP]) h
  | some j => exact patch_section_pre hP

theorem splitContentPair_good (co : List Char) :
    goodPair (splitContentPair co) := by
  constructor
  · intro h
    exact renderChanges_isSome
      (changes_pre_of_major (major_section_nonempty_cases h))
  · intro h
    exact renderChanges_isSome
      (changes_pre_of_patch (patch_section_nonempty_cases h))

theorem mem_updateAssoc {m : AssocL} {k : List Char}
    {v : List Char × List Char} {e : List Char × (List Char × List Char)}
    (h : e ∈ updateAssoc m k v) : e ∈ m ∨ e = (k, v) := by
  induction m with
  | nil => simpa [updateAssoc] using h
  | cons p rest ih =>
    obtain ⟨k', v'⟩ := p
    unfold updateAssoc at h
    split at h
    · rcases List.mem_cons.mp h with rfl | hm
      · exact Or.inr rfl
      · exact Or.inl (by simp [hm])
    · rcases List.mem_cons.mp h with rfl | hm
      · exact Or.inl (by simp)
      · rcases ih hm with h1 | h1
        · exact Or.inl (by simp [h1])
        · exact Or.inr h1

theorem processEntries_good (contents : List (List Char)) :
    ∀ e ∈ processEntries contents, goodPair e.2 := by
  suffices hgen : ∀ (m : AssocL), (∀ e ∈ m, goodPair e.2) →
      ∀ e ∈ List.foldl (fun m c => splitContent c m) m contents, goodPair e.2 by
    exact hgen [] (by simp)
  induction contents with
  | nil => intro m hm; simpa using hm
  | cons co cs ih =>
    intro m hm e he
    refine ih (splitContent co m) ?_ e (by simpa using he)
    intro e' he'
    rcases mem_updateAssoc he' with h1 | h1
    · exact hm e' h1
    · rw [h1]
      exact splitContentPair_good co

theorem bucketsOf_ne_none {m : AssocL} (h : ∀ e ∈ m, goodPair e.2) :
    bucketsOf m ≠ none := by
  induction m with
  | nil => simp [bucketsOf]
  | cons e rest ih =>
    obtain ⟨n, ma, pa⟩ := e
    have hg : goodPair (ma, pa) := h (n, (ma, pa)) (by simp)
    have hrest := ih (fun e' he' => h e' (by simp [he']))
    have hf : ∃ f, (if ma = [] then some ([] : List (List Char))
        else (renderChanges ma).map (fun t => [subItemB n t])) = some f := by
      by_cases hma : ma = []
      · exact ⟨[], by simp [hma]⟩
      · obtain ⟨t, ht⟩ := Option.isSome_iff_exists.mp (hg.1 hma)
        exact ⟨[subItemB n t], by simp [hma, ht]⟩
    have hb : ∃ b, (if pa = [] then some ([] : List (List Char))
        else (renderChanges pa).map (fun t => [subItemB n t])) = some b := by
      by_cases hpa : pa = []
      · exact ⟨[], by simp [hpa]⟩
      · obtain ⟨t, ht⟩ := Option.isSome_iff_exists.mp (hg.2 hpa)
        exact ⟨[subItemB n t], by simp [hpa, ht]⟩
    obtain ⟨f, hfe⟩ := hf
    obtain ⟨b, hbe⟩ := hb
    obtain ⟨pr, hpr⟩ := Option.ne_none_iff_exists'.mp hrest
    simp [bucketsOf, hfe, hbe, hpr]

/-! Last-write-wins behaviour of the title-keyed mapping. -/

theorem lookup_updateAssoc (m : AssocL) (k t : List Char)
    (v : List Char × List Char) :
    lookupAssoc (updateAssoc m k v) t =
      if k = t then some v else lookupAssoc m t := by
  induction m with
  | nil => simp [updateAssoc, lookupAssoc]
  | cons p rest ih =>
    obtain ⟨k', v'⟩ := p
    by_cases hk : k' = k
    · subst hk
      simp only [updateAssoc, if_pos rfl, lookupAssoc]
      by_cases ht : k' = t <;> simp [ht]
    · simp only [updateAssoc, if_neg hk, lookupAssoc]
      by_cases ht : k' = t
      · subst ht
        have hk2 : ¬ k = k' := fun e => hk e.symm
        simp [hk2]
      · simp [ht, ih]

theorem lookup_foldl (t : List Char) (l : List (List Char)) :
    ∀ m : AssocL,
      lookupAssoc (List.foldl (fun m c => splitContent c m) m l) t =
        match lastEntryFor t l with
        | some co => some (splitContentPair co)
        | none => lookupAssoc m t := by
  induction l with
  | nil => intro m; simp [lastEntryFor]
  | cons co cs ih =>
    intro m
    rw [List.foldl_cons, ih (splitContent co m)]
    cases hcs : lastEntryFor t cs with
    | some d => simp [lastEntryFor, hcs]
    | none =>
      simp only [lastEntryFor, hcs, splitContent, lookup_updateAssoc]
      by_cases hco : pluginNameOf co = t <;> simp [hco]

/-! Entries with empty sections contribute nothing to the buckets. -/

theorem removeAssoc_of_not_mem {m : AssocL} {k : List Char}
    (h : ∀ e ∈ m, e.1 ≠ k) : removeAssoc m k = m := by
  induction m with
  | nil => rfl
  | cons e rest ih =>
    have he : (e.1 != k) = true := by
      simpa using h e (by simp)
    simp only [removeAssoc, List.filter_cons, he, if_pos]
    rw [show rest.filter (fun p => p.1 != k) = removeAssoc rest k from rfl,
      ih (fun e' he' => h e' (by simp [he']))]

theorem bucketsOf_update_empty {m : AssocL} {t : List Char}
    (hnd : (m.map Prod.fst).Nodup) :
    bucketsOf (updateAssoc m t ([], [])) = bucketsOf (removeAssoc m t) := by
  induction m with
  | nil => simp [updateAssoc, removeAssoc, bucketsOf]
  | cons e rest ih =>
    obtain ⟨k', ma, pa⟩ := e
    rw [List.map_cons, List.nodup_cons] at hnd
    by_cases hk : k' = t
    · subst hk
      have hrem : removeAssoc rest k' = rest :=
        removeAssoc_of_not_mem (fun e' he' hek =>
          hnd.1 (List.mem_map.mpr ⟨e', he', hek⟩))
      simp only [updateAssoc, if_pos rfl, removeAssoc, List.filter_cons]
      simp only [bne_self_eq_false, Bool.false_eq_true, if_false]
      rw [show rest.filter (fun p => p.1 != k') = removeAssoc rest k' from rfl,
        hrem]
      cases hb : bucketsOf rest <;> simp [bucketsOf, hb]
    · have hne : (k' != t) = true := by simp [hk]
      simp only [updateAssoc, if_neg hk, removeAssoc, List.filter_cons, hne,
        if_pos]
      rw [show rest.filter (fun p => p.1 != t) = removeAssoc rest t from rfl]
      have ih' := ih hnd.2
      cases hu : bucketsOf (updateAssoc rest t ([], [])) with
      | none => simp [bucketsOf, hu, ← ih', hu]
      | some pr => simp [bucketsOf, hu, ← ih', hu]

/-! Shape of the assembled document. -/

theorem splitCh_nil (c : Char) : splitCh c [] = [[]] := rfl

theorem splitCh_cons_self (c : Char) (l : List Char) :
    splitCh c (c :: l) = [] :: splitCh c l := by
  simp [splitCh]

theorem alignedLines (md : List Char) :
    splitCh '\n' (alignedOf md) = (splitCh '\n' md).map trimStartL := by
  apply splitCh_joinWith
  · intro s hs
    rcases List.mem_map.mp hs with ⟨s0, hs0, rfl⟩
    exact not_mem_dropWhile (not_mem_splitCh hs0)
  · have := splitCh_ne_nil '\n' md
    simp [this]

theorem map_trim_prepend {p : List Char} (l : List Char)
    (hp : ∀ x ∈ p, jsIsSpace x = true) (hn : ('\n' : Char) ∉ p) :
    (splitCh '\n' (p ++ l)).map trimStartL = (splitCh '\n' l).map trimStartL := by
  rw [splitCh_prepend l hn]
  cases hs : splitCh '\n' l with
  | nil => exact absurd hs (splitCh_ne_nil _ _)
  | cons y ys =>
    simp only [hs, List.headD_cons, List.tail_cons, List.map_cons]
    congr 1
    exact dropWhile_append_all y hp

theorem splitCh_markdownB (fs bs : List (List Char)) :
    splitCh '\n' (markdownB fs bs) =
      [] :: str "  ## Features" ::
        (splitCh '\n' (str "  " ++ joinWith '\n' fs) ++
          str "  " :: str "  ## Bug fixes" ::
            (splitCh '\n' (str "  " ++ joinWith '\n' bs) ++ [str "  "])) := by
  have hd : markdownB fs bs =
      '\n' :: (str "  ## Features" ++ '\n' ::
        ((str "  " ++ joinWith '\n' fs) ++ '\n' ::
          (str "  " ++ '\n' :: (str "  ## Bug fixes" ++ '\n' ::
            ((str "  " ++ joinWith '\n' bs) ++ '\n' :: str "  "))))) := by
    simp [markdownB,
      show str "\n  ## Features\n  " =
        '\n' :: (str "  ## Features" ++ '\n' :: str "  ") from by decide,
      show str "\n  \n  ## Bug fixes\n  " =
        '\n' :: (str "  " ++ '\n' :: (str "  ## Bug fixes" ++ '\n' :: str "  "))
        from by decide,
      show str "\n  " = '\n' :: str "  " from by decide, List.append_assoc]
  rw [hd, splitCh_cons_self, splitCh_append_sep, splitCh_append_sep,
    splitCh_append_sep, splitCh_append_sep, splitCh_append_sep,
    splitCh_eq_single (show ('\n' : Char) ∉ str "  ## Features" from by decide),
    splitCh_eq_single (show ('\n' : Char) ∉ str "  " from by decide),
    splitCh_eq_single (show ('\n' : Char) ∉ str "  ## Bug fixes" from by decide)]
  simp

theorem aligned_markdownB (fs bs : List (List Char)) :
    splitCh '\n' (alignedOf (markdownB fs bs)) =
      [] :: str "## Features" ::
        ((splitCh '\n' (joinWith '\n' fs)).map trimStartL ++
          [] :: str "## Bug fixes" ::
            ((splitCh '\n' (joinWith '\n' bs)).map trimStartL ++ [[]])) := by
  rw [alignedLines, splitCh_markdownB]
  simp only [List.map_cons, List.map_append, List.map_nil]
  rw [map_trim_prepend (p := str "  ") (joinWith '\n' fs) (by decide) (by decide),
    map_trim_prepend (p := str "  ") (joinWith '\n' bs) (by decide) (by decide),
    show trimStartL [] = [] from by decide,
    show trimStartL (str "  ## Features") = str "## Features" from by decide,
    show trimStartL (str "  ") = [] from by decide,
    show trimStartL (str "  ## Bug fixes") = str "## Bug fixes" from by decide]

theorem splitCh_changelogBody (v md : List Char) (hv : ('\n' : Char) ∉ v) :
    splitCh '\n' (changelogBodyOf v md) =
      [] :: (str "# Release v" ++ v) :: [] ::
        (splitCh '\n' (alignedOf md) ++ [[]]) := by
  have hna : ('\n' : Char) ∉ str "# Release v" ++ v := by
    intro hmem
    rcases List.mem_append.mp hmem with h | h
    · exact absurd h (by decide)
    · exact hv h
  have hd : changelogBodyOf v md =
      '\n' :: ((str "# Release v" ++ v) ++ '\n' ::
        (([] : List Char) ++ '\n' :: (alignedOf md ++ '\n' :: []))) := by
    simp [changelogBodyOf,
      show str "\n# Release v" = '\n' :: str "# Release v" from by decide,
      show str "\n\n" = ['\n', '\n'] from by decide,
      show str "\n" = ['\n'] from by decide, List.append_assoc]
  rw [hd, splitCh_cons_self, splitCh_append_sep, splitCh_append_sep,
    splitCh_append_sep, splitCh_eq_single hna, splitCh_nil]
  simp

/-! Single-character `indexOf` facts for `splitAndCapitalize`. -/

theorem single_pre_of_mem {a : Char} {l : List Char} (h : a ∈ l) :
    ∃ k, [a] <+: l.drop k := by
  obtain ⟨n, hn, he⟩ := List.mem_iff_getElem.mp h
  refine ⟨n, l.drop (n + 1), ?_⟩
  rw [List.drop_eq_getElem_cons hn, he]
  rfl

theorem not_mem_of_firstIdx_none {a : Char} {l : List Char}
    (h : firstIdx [a] l = none) : a ∉ l := by
  intro hm
  obtain ⟨k, hk⟩ := single_pre_of_mem hm
  exact firstIdx_none h k hk

theorem firstIdx_single_decomp {a : Char} {l : List Char} {i : Nat}
    (h : firstIdx [a] l = some i) :
    l = l.take i ++ a :: l.drop (i + 1) ∧ a ∉ l.take i := by
  constructor
  · obtain ⟨t, ht⟩ := pre_of_firstIdx h
    have hdi : List.drop i l = a :: t := by rw [← ht]; rfl
    have ht1 : t = l.drop (i + 1) := by
      have hdd : l.drop (i + 1) = (l.drop i).drop 1 := by
        rw [List.drop_drop, Nat.add_comm]
      rw [hdd, hdi]
      rfl
    conv_lhs => rw [← List.take_append_drop i l]
    rw [hdi, ht1]
  · intro hmem
    obtain ⟨s, t2, hst⟩ := List.append_of_mem hmem
    have hslen : s.length < i := by
      have h1 := congrArg List.length hst
      simp [List.length_take] at h1
      have h2 := Nat.min_le_left i l.length
      omega
    refine firstIdx_min h s.length hslen ⟨t2 ++ l.drop i, ?_⟩
    have hl : l = s ++ (a :: (t2 ++ l.drop i)) := by
      conv_lhs => rw [← List.take_append_drop i l]
      rw [hst]
      simp
    conv_rhs => rw [hl]
    rw [List.drop_left]
    rfl

/-! The claims. -/

/-- Claim C1 (amended): when a changelog entry contains both markers
with the major marker first, `splitContent` assigns non-empty text to
both outputs; the major output is the slice from the major marker up to
the patch marker, trimmed and with the first `###` occurrence removed,
and the patch output is the slice from the patch marker to the end,
trimmed. -/
theorem claim1_both_markers (co : List Char) (i j : Nat)
    (hM : firstIdx (str "Major Changes") co = some i)
    (hP : firstIdx (str "Patch Changes") co = some j) (hij : i < j) :
    (splitContentPair co).1 =
        replaceFirst (str "###") [] (trimChars (jsSlice co i j)) ∧
      (splitContentPair co).2 = trimChars (co.drop j) ∧
      (splitContentPair co).1 ≠ [] ∧ (splitContentPair co).2 ≠ [] := by
  refine ⟨by simp [splitContentPair, hM, hP], by simp [splitContentPair, hP],
    ?_, ?_⟩
  · intro he
    have hpre := major_section_pre hM hP hij
    rw [he] at hpre
    have hlen := hpre.length_le
    rw [show (str "Major Changes").length = 13 from by decide] at hlen
    simp at hlen
  · intro he
    have hpre := patch_section_pre hP
    rw [he] at hpre
    have hlen := hpre.length_le
    rw [show (str "Patch Changes").length = 13 from by decide] at hlen
    simp at hlen

/-- Witness for claim C1: a concrete entry with both markers. -/
theorem claim1_both_markers_witness :
    (splitContentPair
        (str "## T\n\n### Major Changes\n\n- x\n\n### Patch Changes\n\n- y\n")).1 ≠
        [] ∧
      (splitContentPair
        (str "## T\n\n### Major Changes\n\n- x\n\n### Patch Changes\n\n- y\n")).2 ≠
        [] :=
  (claim1_both_markers
    (str "## T\n\n### Major Changes\n\n- x\n\n### Patch Changes\n\n- y\n")
    10 34 (by decide) (by decide) (by decide)).2.2

/-- Claim C1 as literally stated is false: the stored major section is
not exactly the text from the major marker up to the patch marker (it is
trimmed and loses a `###`), and the stored patch section is not exactly
the text from the patch marker to the end (it is trimmed). -/
theorem claim1_counterexample :
    firstIdx (str "Major Changes")
        (str "## T\n\n### Major Changes\n\n- x\n\n### Patch Changes\n\n- y\n") =
        some 10 ∧
      firstIdx (str "Patch Changes")
        (str "## T\n\n### Major Changes\n\n- x\n\n### Patch Changes\n\n- y\n") =
        some 34 ∧
      (splitContentPair
        (str "## T\n\n### Major Changes\n\n- x\n\n### Patch Changes\n\n- y\n")).1 ≠
        jsSlice
          (str "## T\n\n### Major Changes\n\n- x\n\n### Patch Changes\n\n- y\n")
          10 34 ∧
      (splitContentPair
        (str "## T\n\n### Major Changes\n\n- x\n\n### Patch Changes\n\n- y\n")).2 ≠
        (str "## T\n\n### Major Changes\n\n- x\n\n### Patch Changes\n\n- y\n").drop
          34 := by
  decide

/-- Claim C2: on an entry whose content mentions `Patch` but nowhere
contains the word `Changes`, the filter-based bugfix renderer fails at
runtime (modeled by `none`) rather than emitting nothing, and the
mapping-based `split("Changes")[1].trim()` step fails likewise. -/
theorem claim2_missing_changes_marker (co : List Char)
    (hp : includesL (str "Patch") co = true)
    (hc : includesL (str "Changes") co = false) :
    bugFixedMarkdownA [co] = none ∧ renderChanges co = none := by
  have hnone : firstIdx (str "Changes") co = none := by
    rw [← Option.not_isSome_iff_eq_none]
    simpa [includesL] using hc
  have hitem : entryItemA co = none := by
    simp [entryItemA, splitAt1_eq_none hnone]
  constructor
  · have hfil : List.filter (includesL (str "Patch")) [co] = [co] := by
      simp [List.filter_cons, hp]
    rw [bugFixedMarkdownA, hfil]
    simp [List.mapM, List.mapM.loop, hitem]
  · simp [renderChanges, splitAt1_eq_none hnone]

/-- Witness for claim C2: a content with `Patch` but no `Changes`. -/
theorem claim2_witness :
    bugFixedMarkdownA [str "## X\n\nPatchwork notes"] = none ∧
      renderChanges (str "## X\n\nPatchwork notes") = none :=
  claim2_missing_changes_marker (str "## X\n\nPatchwork notes")
    (by decide) (by decide)

/-- Claim C3: an entry with neither marker gets the empty pair stored
(no error is raised, the classifier being total), and rendering the
resulting mapping equals rendering the mapping with that title removed:
the package appears in neither bucket. -/
theorem claim3_no_markers (co : List Char)
    (hM : firstIdx (str "Major Changes") co = none)
    (hP : firstIdx (str "Patch Changes") co = none) :
    splitContentPair co = ([], []) ∧
      ∀ m : AssocL, (m.map Prod.fst).Nodup →
        bucketsOf (splitContent co m) =
          bucketsOf (removeAssoc m (pluginNameOf co)) := by
  have hpair : splitContentPair co = ([], []) := by
    simp [splitContentPair, hM, hP]
  refine ⟨hpair, fun m hm => ?_⟩
  rw [splitContent, hpair]
  exact bucketsOf_update_empty hm

/-- Witness for claim C3: an entry with no marker, inserted into a
one-entry mapping. -/
theorem claim3_witness :
    splitContentPair (str "## T\n\nplain notes") = ([], []) ∧
      bucketsOf
          (splitContent (str "## T\n\nplain notes")
            [(str "X", (str "Major Changes\n- m", []))]) =
        bucketsOf
          (removeAssoc [(str "X", (str "Major Changes\n- m", []))]
            (pluginNameOf (str "## T\n\nplain notes"))) :=
  ⟨(claim3_no_markers (str "## T\n\nplain notes") (by decide) (by decide)).1,
    (claim3_no_markers (str "## T\n\nplain notes") (by decide) (by decide)).2
      [(str "X", (str "Major Changes\n- m", []))] (by simp)⟩

/-- Claim C4: the mapping built by the classification loop is keyed by
package title and the last entry with a given title wins: looking up a
title returns exactly the section pair of the latest entry carrying it,
with no merging. -/
theorem claim4_last_entry_wins (l : List (List Char)) (t : List Char) :
    lookupAssoc (processEntries l) t = (lastEntryFor t l).map splitContentPair ∧
      ∀ c1 c2 : List Char, pluginNameOf c1 = pluginNameOf c2 →
        lookupAssoc (processEntries [c1, c2]) (pluginNameOf c2) =
          some (splitContentPair c2) := by
  constructor
  · have h := lookup_foldl t l []
    rw [show processEntries l =
        List.foldl (fun m c => splitContent c m) [] l from rfl, h]
    cases lastEntryFor t l <;> simp [lookupAssoc]
  · intro c1 c2 _
    have h2 := lookup_foldl (pluginNameOf c2) [c1, c2] []
    rw [show processEntries [c1, c2] =
        List.foldl (fun m c => splitContent c m) [] [c1, c2] from rfl, h2]
    simp [lastEntryFor]

/-- Witness for claim C4: two entries with the same title; the stored
pair is the second entry's. -/
theorem claim4_witness :
    lookupAssoc
        (processEntries [str "## T\n\n### Major Changes\n\n- a\n",
          str "## T\n\n### Patch Changes\n\n- b\n"])
        (pluginNameOf (str "## T\n\n### Patch Changes\n\n- b\n")) =
      some (splitContentPair (str "## T\n\n### Patch Changes\n\n- b\n")) :=
  (claim4_last_entry_wins [] []).2
    (str "## T\n\n### Major Changes\n\n- a\n")
    (str "## T\n\n### Patch Changes\n\n- b\n") (by decide)

/-- Claim C5 is contradicted by the code: when no `releaseVersion`
option is supplied the file is written to `vundefined-changelog.md`
(the interpolation of `undefined`), while the document heading uses the
version read from `package.json`; the two versions differ. -/
theorem claim5_filename_version_mismatch :
    fullChangelogPath (str "docs/releases") none =
        str "docs/releases/vundefined-changelog.md" ∧
      toUseReleaseVersion none (str "1.2.3") = str "1.2.3" ∧
      (splitCh '\n'
          (changelogBodyOf (toUseReleaseVersion none (str "1.2.3"))
            (markdownB [] [])))[1]? =
        some (str "# Release v1.2.3") ∧
      changelogFileName none ≠
        str "v" ++ toUseReleaseVersion none (str "1.2.3") ++
          str "-changelog.md" := by
  decide

/-- Claim C6: left-aligning acts line by line (`trimStart` on each
line), the rendered document has its `## Features` heading strictly
before its `## Bug fixes` heading, and the whole aligned block sits
under a top-level `# Release v{version}` heading. -/
theorem claim6_document_shape (fs bs : List (List Char)) (v : List Char)
    (hv : ('\n' : Char) ∉ v) :
    (∀ md, splitCh '\n' (alignedOf md) = (splitCh '\n' md).map trimStartL) ∧
      (∃ i j : Nat, i < j ∧
        (splitCh '\n' (alignedOf (markdownB fs bs)))[i]? =
            some (str "## Features") ∧
          (splitCh '\n' (alignedOf (markdownB fs bs)))[j]? =
            some (str "## Bug fixes")) ∧
      splitCh '\n' (changelogBodyOf v (markdownB fs bs)) =
        [] :: (str "# Release v" ++ v) :: [] ::
          (splitCh '\n' (alignedOf (markdownB fs bs)) ++ [[]]) := by
  refine ⟨alignedLines, ?_, splitCh_changelogBody v _ hv⟩
  refine ⟨1,
    2 + ((splitCh '\n' (joinWith '\n' fs)).map trimStartL).length + 1,
    by omega, ?_, ?_⟩
  · rw [aligned_markdownB]
    simp
  · rw [aligned_markdownB]
    have hgrp : ([] : List Char) :: str "## Features" ::
        ((splitCh '\n' (joinWith '\n' fs)).map trimStartL ++
          [] :: str "## Bug fixes" ::
            ((splitCh '\n' (joinWith '\n' bs)).map trimStartL ++ [[]])) =
        ([] :: str "## Features" ::
          (splitCh '\n' (joinWith '\n' fs)).map trimStartL) ++
          ([] :: str "## Bug fixes" ::
            ((splitCh '\n' (joinWith '\n' bs)).map trimStartL ++ [[]])) := by
      simp
    rw [hgrp, List.getElem?_append_right (by simp; omega)]
    have hidx : 2 + ((splitCh '\n' (joinWith '\n' fs)).map trimStartL).length +
        1 -
        (([] :: str "## Features" ::
          (splitCh '\n' (joinWith '\n' fs)).map trimStartL).length) = 1 := by
      simp
      omega
    rw [hidx]
    simp

/-- Witness for claim C6: a concrete document with one feature and one
bugfix subsection. -/
theorem claim6_witness :
    splitCh '\n' (changelogBodyOf (str "1.0.0") (markdownB [str "f"] [str "b"])) =
      [] :: (str "# Release v" ++ str "1.0.0") :: [] ::
        (splitCh '\n' (alignedOf (markdownB [str "f"] [str "b"])) ++ [[]]) :=
  (claim6_document_shape [str "f"] [str "b"] (str "1.0.0") (by decide)).2.2

/-- Claim C7: the version flow swallows any formatter failure, keeping
the unformatted body, and uses the formatter's output when it
succeeds. -/
theorem claim7_formatter_fallback
    (fmt : List Char → Except (List Char) (List Char)) (body : List Char) :
    (∀ e, fmt body = Except.error e → applyFormatter fmt body = body) ∧
      ∀ s, fmt body = Except.ok s → applyFormatter fmt body = s := by
  constructor <;> intro x hx <;> simp [applyFormatter, hx]

/-- Witness for claim C7: a failing and a succeeding formatter. -/
theorem claim7_witness :
    applyFormatter (fun _ => Except.error (str "boom")) (str "doc") =
        str "doc" ∧
      applyFormatter (fun b => Except.ok (b ++ str "!")) (str "doc") =
        str "doc" ++ str "!" :=
  ⟨(claim7_formatter_fallback (fun _ => Except.error (str "boom"))
      (str "doc")).1 (str "boom") rfl,
    (claim7_formatter_fallback (fun b => Except.ok (b ++ str "!"))
      (str "doc")).2 (str "doc" ++ str "!") rfl⟩

/-- Claim C8: the two classification-and-rendering implementations in
the source disagree: on a two-package input both produce a document, and
the documents differ. -/
theorem claim8_implementations_disagree :
    implADoc [str "## Pkg A\n\n### Major Changes\n\n- added stuff\n",
        str "## Pkg B\n\n### Patch Changes\n\n- fixed stuff\n"]
        (str "1.0.0") ≠
      implBDoc [str "## Pkg A\n\n### Major Changes\n\n- added stuff\n",
        str "## Pkg B\n\n### Patch Changes\n\n- fixed stuff\n"]
        (str "1.0.0") ∧
    (implADoc [str "## Pkg A\n\n### Major Changes\n\n- added stuff\n",
        str "## Pkg B\n\n### Patch Changes\n\n- fixed stuff\n"]
        (str "1.0.0")).isSome ∧
    (implBDoc [str "## Pkg A\n\n### Major Changes\n\n- added stuff\n",
        str "## Pkg B\n\n### Patch Changes\n\n- fixed stuff\n"]
        (str "1.0.0")).isSome := by
  decide

/-- Claim C9: the formatted package title drops everything up to and
including the first hyphen, capitalizing the remaining hyphen-separated
words; with no hyphen the title is empty and the heading line is
exactly `## `. -/
theorem claim9_title_formatting (name body : List Char) :
    (firstIdx (str "-") name = none →
      splitAndCapitalize name = [] ∧
        firstLineOf (entryContentOf name body) = str "## ") ∧
      ∀ i, firstIdx (str "-") name = some i →
        splitAndCapitalize name =
          joinWith ' ' ((splitCh '-' (name.drop (i + 1))).map capWord) := by
  constructor
  · intro h
    rw [show str "-" = ['-'] from by decide] at h
    have hmem : '-' ∉ name := not_mem_of_firstIdx_none h
    have hsp : splitCh '-' name = [name] := splitCh_eq_single hmem
    have h1 : splitAndCapitalize name = [] := by
      simp [splitAndCapitalize, hsp, joinWith]
    refine ⟨h1, ?_⟩
    rw [entryContentOf, h1]
    have hb : str "## " ++ [] ++ (str "\n\n" ++ body) =
        str "## " ++ '\n' :: ('\n' :: body) := by
      simp [show str "\n\n" = ['\n', '\n'] from by decide]
    rw [show str "## " ++ [] ++ str "\n\n" ++ body =
        str "## " ++ [] ++ (str "\n\n" ++ body) from by
      simp [List.append_assoc], hb, firstLineOf, splitCh_append_sep,
      splitCh_eq_single (show ('\n' : Char) ∉ str "## " from by decide)]
    rfl
  · intro i h
    rw [show str "-" = ['-'] from by decide] at h
    obtain ⟨hdec, hnm⟩ := firstIdx_single_decomp h
    have hsp : splitCh '-' name =
        name.take i :: splitCh '-' (name.drop (i + 1)) := by
      conv_lhs => rw [hdec]
      rw [splitCh_append_sep, splitCh_eq_single hnm]
      rfl
    simp [splitAndCapitalize, hsp]

/-- Witness for claim C9: a hyphen-free name and a hyphenated one. -/
theorem claim9_witness :
    (splitAndCapitalize (str "plugin") = [] ∧
      firstLineOf (entryContentOf (str "plugin") (str "body")) = str "## ") ∧
    splitAndCapitalize (str "plugin-catalog-backend") =
      joinWith ' '
        ((splitCh '-' ((str "plugin-catalog-backend").drop (6 + 1))).map
          capWord) :=
  ⟨(claim9_title_formatting (str "plugin") (str "body")).1 (by decide),
    (claim9_title_formatting (str "plugin-catalog-backend") []).2 6 (by decide)⟩

/-- Claim C10: every non-empty major section stored by the classifier
starts with `Major Changes` and every non-empty patch section with
`Patch Changes`; hence the renderer's `split("Changes")[1]` always
succeeds and the bucket rendering of any classified mapping never
fails. -/
theorem claim10_stored_sections_well_formed (co : List Char) :
    ((splitContentPair co).1 ≠ [] →
      str "Major Changes" <+: (splitContentPair co).1 ∧
        (renderChanges (splitContentPair co).1).isSome) ∧
      ((splitContentPair co).2 ≠ [] →
        str "Patch Changes" <+: (splitContentPair co).2 ∧
          (renderChanges (splitContentPair co).2).isSome) ∧
      ∀ contents : List (List Char),
        bucketsOf (processEntries contents) ≠ none := by
  refine ⟨fun h => ⟨major_section_nonempty_cases h, ?_⟩,
    fun h => ⟨patch_section_nonempty_cases h, ?_⟩,
    fun contents => bucketsOf_ne_none (processEntries_good contents)⟩
  · exact renderChanges_isSome
      (changes_pre_of_major (major_section_nonempty_cases h))
  · exact renderChanges_isSome
      (changes_pre_of_patch (patch_section_nonempty_cases h))

/-- Witness for claim C10: a concrete entry with both sections. -/
theorem claim10_witness :
    (str "Major Changes" <+:
        (splitContentPair
          (str "## W\n\n### Major Changes\n\n- m\n\n### Patch Changes\n\n- p\n")).1 ∧
      (renderChanges
        (splitContentPair
          (str "## W\n\n### Major Changes\n\n- m\n\n### Patch Changes\n\n- p\n")).1).isSome) ∧
    (str "Patch Changes" <+:
        (splitContentPair
          (str "## W\n\n### Major Changes\n\n- m\n\n### Patch Changes\n\n- p\n")).2 ∧
      (renderChanges
        (splitContentPair
          (str "## W\n\n### Major Changes\n\n- m\n\n### Patch Changes\n\n- p\n")).2).isSome) :=
  ⟨(claim10_stored_sections_well_formed
      (str "## W\n\n### Major Changes\n\n- m\n\n### Patch Changes\n\n- p\n")).1
      (by decide),
    (claim10_stored_sections_well_formed
      (str "## W\n\n### Major Changes\n\n- m\n\n### Patch Changes\n\n- p\n")).2.1
      (by decide)⟩

end Changesets
